import Mathlib

/-!
Verification of the Nimble semantic analyzer (`nimblesemantics.py`).

The definitions below are a shallow embedding of the second analysis pass
(`InferTypesAndCheckConstraints`) and of the scope operations it relies on.
Each `exit...` handler of the Python listener is embedded as a pure Lean
function over the data it reads (the resolved symbol, the inferred types of
the child expressions, the list of statements of a block, ...), returning the
data it writes (the node's inferred type, the scope contents, the diagnostics
it appends to the error log, in order).
-/

/-- `symboltable.PrimitiveType`: closed enumeration of the primitive types,
with the `ERROR` sentinel. -/
inductive PrimitiveType where
  | Int
  | String
  | Bool
  | Void
  | ERROR
deriving DecidableEq, Repr, Fintype

/-- `symboltable.FunctionType`: ordered parameter types plus a return type. -/
structure FunctionType where
  parameter_types : List PrimitiveType
  return_type : PrimitiveType
deriving DecidableEq, Repr

/-- The type stored in a symbol-table entry: either a `PrimitiveType` or a
`FunctionType` (Python stores either object in `Symbol.type`). -/
inductive SymbolType where
  | prim (t : PrimitiveType)
  | func (f : FunctionType)
deriving DecidableEq, Repr

/-- `true` iff the symbol type is a `PrimitiveType` (not a `FunctionType`). -/
def SymbolType.isPrim : SymbolType → Bool
  | .prim _ => true
  | .func _ => false

/-- A type name writable in Nimble source: the grammar's `TYPE` token is one
of `Int`, `Bool`, `String`; `Void` cannot be written, it only arises as the
default return type of a function with no return-type annotation. -/
inductive NimbleType where
  | Int
  | Bool
  | String
deriving DecidableEq, Repr, Fintype

/-- `PrimitiveType[TYPE.getText()]`: the primitive type named by a `TYPE`
token. -/
def NimbleType.toPrimitive : NimbleType → PrimitiveType
  | .Int => .Int
  | .Bool => .Bool
  | .String => .String

/-- The declared return type of a function definition: `funcCtx.TYPE()` when
present, `Void` otherwise (see `DefineScopesAndSymbols.enterFuncDef`). -/
def declared_return_type : Option NimbleType → PrimitiveType
  | none => .Void
  | some t => t.toPrimitive

/-- The statement shapes the reachability analyzer of `exitBlock`
distinguishes: a `return` (with or without an expression), an `if` with a
then-block and an optional else-block, a `while` with a body block, and any
other statement kind (variable declaration, assignment, print, function-call
statement).  Condition expressions are elided because `exitBlock`,
`check_if_totalblocked` and the unreachable-marking helpers never read
them. -/
inductive Stmt where
  | ret (hasExpr : Bool)
  | ifStmt (thenBlock : List Stmt) (elseBlock : Option (List Stmt))
  | whileStmt (body : List Stmt)
  | other
deriving Repr

mutual

/-- `InferTypesAndCheckConstraints.check_if_totalblocked`: an `if` statement
is "totally blocked" when it has an else-block and the scan of each of its
two blocks (`branch_scan`) finds a return or a nested totally blocked `if`.
Any non-`if` statement is never totally blocked (the Python method is only
ever called on `if` statements; on anything else the success pattern cannot
match). -/
def check_if_totalblocked : Stmt → Bool
  | .ifStmt _ none => false
  | .ifStmt thenBlock (some elseBlock) =>
    let if_blocked := branch_scan thenBlock
    let else_blocked := if if_blocked then branch_scan elseBlock else false
    if_blocked && else_blocked
  | _ => false

/-- The per-branch loop of `check_if_totalblocked`: scan the statements in
order; a nested totally blocked `if` or a return statement stops the scan
with `true`; any other statement (including a non-blocked `if`) is skipped;
an exhausted list yields `false`. -/
def branch_scan : List Stmt → Bool
  | [] => false
  | s :: rest =>
    match s with
    | .ifStmt t e =>
      if check_if_totalblocked (.ifStmt t e) then true else branch_scan rest
    | .ret _ => true
    | _ => branch_scan rest

end

/-- A statement that sets the `return_found` flag in `exitBlock`: a return
statement, or an `if` statement that is totally blocked. -/
def stmt_hit : Stmt → Bool
  | .ret _ => true
  | .ifStmt t e => check_if_totalblocked (.ifStmt t e)
  | _ => false

mutual

/-- The logging loop shared by `set_if_unreachable` and
`set_while_unreachable`: each statement of the block is logged as
unreachable (returned here, in log order), and `check_if_while_encountered`
descends into it. -/
def mark_stmts : List Stmt → List Stmt
  | [] => []
  | s :: rest => s :: (check_if_while_encountered s ++ mark_stmts rest)

/-- `InferTypesAndCheckConstraints.check_if_while_encountered`: on an `if`
statement, iterate over its blocks (`set_if_unreachable`); on a `while`
statement, over its body (`set_while_unreachable`); otherwise do nothing.
Returns the statements logged `UnreachableStatement`, in order. -/
def check_if_while_encountered : Stmt → List Stmt
  | .ifStmt thenBlock none => mark_stmts thenBlock
  | .ifStmt thenBlock (some elseBlock) => mark_stmts thenBlock ++ mark_stmts elseBlock
  | .whileStmt body => mark_stmts body
  | _ => []

end

/-- The first loop of `InferTypesAndCheckConstraints.exitBlock`: scan the
block's statements with the `return_found` flag; while the flag is false a
return or a totally blocked `if` sets it (the statement itself is not
logged); once the flag is true each statement is logged unreachable and
`check_if_while_encountered` is applied to it.  Returns the statements
logged `UnreachableStatement`, in order. -/
def unreachable_scan (return_found : Bool) : List Stmt → List Stmt
  | [] => []
  | s :: rest =>
    if return_found then
      s :: (check_if_while_encountered s ++ unreachable_scan return_found rest)
    else
      unreachable_scan (stmt_hit s) rest

/-- The second loop of `exitBlock` (the missing-return scan): fold the
`fully_blocked` flag over all statements; a totally blocked `if` or a return
statement sets it; it is never reset. -/
def missing_return_scan (stmts : List Stmt) : Bool :=
  stmts.foldl
    (fun fully_blocked s =>
      match s with
      | .ifStmt t e => if check_if_totalblocked (.ifStmt t e) then true else fully_blocked
      | .ret _ => true
      | _ => fully_blocked)
    false

/-- A diagnostic logged by `exitBlock`. -/
inductive BlockDiag where
  | unreachable (s : Stmt)
  | missingReturn
deriving Repr

/-- `InferTypesAndCheckConstraints.exitBlock`: the unreachable-statement pass
followed by the missing-return check.  `isFuncBody` embeds the test
`type(ctx.parentCtx.parentCtx) == NimbleParser.FuncDefContext`
(false for main's body and for nested if/while blocks); `ann` embeds
`funcCtx.TYPE()`, the optional return-type annotation of the enclosing
function definition.  Returns the diagnostics logged, in order. -/
def exitBlock (isFuncBody : Bool) (ann : Option NimbleType) (stmts : List Stmt) :
    List BlockDiag :=
  (unreachable_scan false stmts).map BlockDiag.unreachable
    ++ (if isFuncBody then
          (if ann.isSome then
            (if missing_return_scan stmts then [] else [BlockDiag.missingReturn])
          else [])
        else [])

/-- An `InvalidCall` diagnostic logged by `exitFuncCall`: either the
unresolved-name message, or the single combined message listing the
mismatched (argument type, parameter type) pairs (the Python code renders
them as the `error_args` / `error_params` strings of one message). -/
inductive CallDiag where
  | invalidCall_unresolved
  | invalidCall_mismatch (pairs : List (PrimitiveType × PrimitiveType))
deriving DecidableEq, Repr

/-- The argument-checking loop of `exitFuncCall`: over
`zip(func_args, func_symbol.type.parameter_types)`, collect every pair whose
argument type differs from its parameter type (the Python loop appends to
`error_args`/`error_params` and sets `error_found`). -/
def collect_mismatches : List (PrimitiveType × PrimitiveType) →
    List (PrimitiveType × PrimitiveType)
  | [] => []
  | (a, p) :: rest =>
    if a ≠ p then (a, p) :: collect_mismatches rest else collect_mismatches rest

/-- `InferTypesAndCheckConstraints.exitFuncCall`, as a function of the
resolved callee symbol's type (`none` when `resolve` returned `None`) and the
inferred types of the arguments in order.  Returns the node's inferred type
together with the logged diagnostics; the result is `none` when the Python
code raises: accessing `func_symbol.type.parameter_types` on a symbol whose
type is a `PrimitiveType` raises an uncaught `AttributeError`, aborting the
run. -/
def exitFuncCall (sym : Option SymbolType) (argTypes : List PrimitiveType) :
    Option (PrimitiveType × List CallDiag) :=
  match sym with
  | none => some (.ERROR, [CallDiag.invalidCall_unresolved])
  | some (.prim _) => none
  | some (.func f) =>
    let pairs := collect_mismatches (argTypes.zip f.parameter_types)
    if pairs ≠ [] then some (.ERROR, [CallDiag.invalidCall_mismatch pairs])
    else some (f.return_type, [])

/-- `InferTypesAndCheckConstraints.exitReturn`, as a function of the
enclosing scope's `return_type` and of the inferred type of the return
expression (`none` when `ctx.expr()` is `None`).  Returns `true` iff an
`InvalidReturn` diagnostic is logged (the handler logs at most one). -/
def exitReturn (return_type : PrimitiveType) (exprType : Option PrimitiveType) :
    Bool :=
  if return_type ≠ .Void then
    match exprType with
    | none => true
    | some t => return_type ≠ t
  else
    exprType.isSome

/-- One scope's symbol table: entries `(name, type, is_param)` in reverse
insertion order; `Scope.define` prepends, so the most recent definition of a
name shadows older ones, matching the overwriting dictionary entry. -/
abbrev SymTab := List (String × SymbolType × Bool)

/-- Look a name up in a single scope's own symbols. -/
def lookup_frame : SymTab → String → Option SymbolType
  | [], _ => none
  | (n, t, _) :: rest, name => if n = name then some t else lookup_frame rest name

/-- Modelled from the spec: `symboltable.Scope.resolve` is not among the
analyzed sources; per the spec, name lookup walks from the current scope up
through the enclosing-scope links to the global scope, returning the first
matching symbol, or none.  A scope chain is the list of symbol tables from
the current scope (head) up to the global scope (last). -/
def Scope.resolve : List SymTab → String → Option SymbolType
  | [], _ => none
  | frame :: outer, name =>
    match lookup_frame frame name with
    | some t => some t
    | none => Scope.resolve outer name

/-- Modelled from the spec: `symboltable.Scope.define` is not among the
analyzed sources; per the spec, definition only ever writes into the current
scope (the head of the chain), inserting or overwriting the entry for the
name. -/
def Scope.define (frames : List SymTab) (name : String) (t : SymbolType)
    (is_param : Bool) : List SymTab :=
  match frames with
  | [] => []
  | frame :: outer => ((name, t, is_param) :: frame) :: outer

/-- A diagnostic logged while handling a variable or parameter
declaration. -/
inductive VarDecDiag where
  | duplicateName
  | assignToWrongType
deriving DecidableEq, Repr

/-- `InferTypesAndCheckConstraints.sub_var_dec`: if the declared name already
resolves (anywhere up the scope chain), bind it to `ERROR` in the current
scope, log `DuplicateName` and set the `error` flag.  Returns the updated
scope chain, the `error` flag, and the logged diagnostics. -/
def sub_var_dec (frames : List SymTab) (name : String) :
    List SymTab × Bool × List VarDecDiag :=
  if (Scope.resolve frames name).isSome then
    (Scope.define frames name (.prim .ERROR) false, true, [.duplicateName])
  else
    (frames, false, [])

/-- `InferTypesAndCheckConstraints.exitVarDec`, as a function of the scope
chain, the declared name and `TYPE`, and the inferred type of the
initializer expression (`none` when `ctx.expr()` is `None`).  Returns the
updated scope chain and the logged diagnostics, in order.  Note the
initializer type check is performed whether or not `sub_var_dec` reported a
duplicate; only the final (successful) binding is guarded by the `error`
flag. -/
def exitVarDec (frames : List SymTab) (name : String) (declType : NimbleType)
    (initType : Option PrimitiveType) : List SymTab × List VarDecDiag :=
  let r := sub_var_dec frames name
  match initType with
  | some et =>
    if et ≠ declType.toPrimitive then
      (Scope.define r.1 name (.prim .ERROR) false, r.2.2 ++ [.assignToWrongType])
    else if !r.2.1 then
      (Scope.define r.1 name (.prim declType.toPrimitive) false, r.2.2)
    else
      (r.1, r.2.2)
  | none =>
    if !r.2.1 then
      (Scope.define r.1 name (.prim declType.toPrimitive) false, r.2.2)
    else
      (r.1, r.2.2)

/-- `InferTypesAndCheckConstraints.exitParameterDef`: run `sub_var_dec`; when
no duplicate was found, bind the name to the declared type as a parameter in
the current scope.  Returns the updated scope chain and the logged
diagnostics. -/
def exitParameterDef (frames : List SymTab) (name : String)
    (declType : NimbleType) : List SymTab × List VarDecDiag :=
  let r := sub_var_dec frames name
  if !r.2.1 then
    (Scope.define r.1 name (.prim declType.toPrimitive) true, r.2.2)
  else
    (r.1, r.2.2)

/-- `InferTypesAndCheckConstraints.exitVariable`, as a function of the
resolved symbol's type (`none` when `resolve` returned `None`).  Returns the
type stored into the annotation map for the variable-reference node: `ERROR`
when the name is undefined or bound to `ERROR`, otherwise the symbol's type
as is — which is the symbol's `FunctionType` when the name resolves to a
function. -/
def exitVariable (resolved : Option SymbolType) : SymbolType :=
  match resolved with
  | none => .prim .ERROR
  | some t => if t = .prim .ERROR then .prim .ERROR else t

/-- The `AddSub` operator token: the grammar admits `+` and `-` only. -/
inductive AddOp where
  | plus
  | minus
deriving DecidableEq, Repr, Fintype

/-- `InferTypesAndCheckConstraints.exitMulDiv`, as a function of the inferred
types of the two operands.  Returns the node's inferred type and whether an
`InvalidBinaryOp` diagnostic is logged (the handler logs at most one). -/
def exitMulDiv (left right : PrimitiveType) : PrimitiveType × Bool :=
  if left = .Int ∧ right = .Int then (.Int, false) else (.ERROR, true)

/-- `InferTypesAndCheckConstraints.exitAddSub`: the operator must be `+` or
`-` and both operand types `Int`; returns the node's inferred type and
whether an `InvalidBinaryOp` diagnostic is logged. -/
def exitAddSub (op : AddOp) (left right : PrimitiveType) : PrimitiveType × Bool :=
  if (op = AddOp.plus ∨ op = AddOp.minus) ∧ left = .Int ∧ right = .Int then
    (.Int, false)
  else
    (.ERROR, true)

/-- `InferTypesAndCheckConstraints.exitCompare`: both operand types must be
`Int`; the node's type is then `Bool`; returns the node's inferred type and
whether an `InvalidBinaryOp` diagnostic is logged. -/
def exitCompare (left right : PrimitiveType) : PrimitiveType × Bool :=
  if left = .Int ∧ right = .Int then (.Bool, false) else (.ERROR, true)

/-- A statement directly inside one of the blocks of `parent` (its then-block,
else-block or while-body). -/
def in_nested_block (child parent : Stmt) : Prop :=
  match parent with
  | .ifStmt t none => child ∈ t
  | .ifStmt t (some e) => child ∈ t ∨ child ∈ e
  | .whileStmt b => child ∈ b
  | _ => False

/-- A statement inside the nested blocks of `parent`, at any depth: either
directly in one of its blocks, or inside the nested blocks of a statement
that is directly in one of its blocks. -/
inductive InsideBlocks : Stmt → Stmt → Prop where
  | direct {s p} : in_nested_block s p → InsideBlocks s p
  | nested {s m p} : in_nested_block m p → InsideBlocks s m → InsideBlocks s p

/-- The scan rule of the spec, split at the flag-setting statement: the
statements strictly after the first one that is a return or a totally
blocked `if` (all of them when there is no such statement). -/
def after_first_hit : List Stmt → List Stmt
  | [] => []
  | s :: rest => if stmt_hit s then rest else after_first_hit rest

theorem branch_scan_iff (l : List Stmt) :
    branch_scan l = true ↔ ∃ s ∈ l, stmt_hit s = true := by
  induction l with
  | nil => simp [branch_scan]
  | cons s rest ih =>
    cases s with
    | ret h => simp [branch_scan, stmt_hit]
    | ifStmt t e =>
      by_cases hc : check_if_totalblocked (.ifStmt t e) = true
      · simp [branch_scan, hc, stmt_hit]
      · simp only [branch_scan, hc, if_neg, Bool.false_eq_true, ite_false, ih]
        simp only [List.mem_cons]
        constructor
        · rintro ⟨x, hx, hhit⟩; exact ⟨x, Or.inr hx, hhit⟩
        · rintro ⟨x, hx | hx, hhit⟩
          · subst hx; simp [stmt_hit, hc] at hhit
          · exact ⟨x, hx, hhit⟩
    | whileStmt b =>
      simp only [branch_scan, ih, List.mem_cons]
      constructor
      · rintro ⟨x, hx, hhit⟩; exact ⟨x, Or.inr hx, hhit⟩
      · rintro ⟨x, hx | hx, hhit⟩
        · subst hx; simp [stmt_hit] at hhit
        · exact ⟨x, hx, hhit⟩
    | other =>
      simp only [branch_scan, ih, List.mem_cons]
      constructor
      · rintro ⟨x, hx, hhit⟩; exact ⟨x, Or.inr hx, hhit⟩
      · rintro ⟨x, hx | hx, hhit⟩
        · subst hx; simp [stmt_hit] at hhit
        · exact ⟨x, hx, hhit⟩

/-- C1: an `if` statement is classified fully terminating by
`check_if_totalblocked` iff it has an else-branch and the in-order scan of
its if-branch finds a statement that is a return or a nested fully
terminating `if`, and likewise for its else-branch; an `if` without an
else-branch and a `while` statement are never classified terminating. -/
theorem claim1_fully_terminating_if :
    (∀ thenBlock elseBlock,
      check_if_totalblocked (.ifStmt thenBlock (some elseBlock)) = true ↔
        ((∃ s ∈ thenBlock, stmt_hit s = true) ∧ (∃ s ∈ elseBlock, stmt_hit s = true)))
    ∧ (∀ thenBlock, check_if_totalblocked (.ifStmt thenBlock none) = false)
    ∧ (∀ body, check_if_totalblocked (.whileStmt body) = false) := by
  refine ⟨fun thenBlock elseBlock => ?_, fun thenBlock => rfl, fun body => rfl⟩
  have hunf : check_if_totalblocked (.ifStmt thenBlock (some elseBlock))
      = (branch_scan thenBlock && branch_scan elseBlock) := by
    by_cases hb : branch_scan thenBlock = true
    · simp [check_if_totalblocked, hb]
    · simp [check_if_totalblocked, hb, Bool.eq_false_iff.mpr hb]
  rw [hunf, Bool.and_eq_true, branch_scan_iff, branch_scan_iff]

theorem mark_stmts_eq (l : List Stmt) :
    mark_stmts l = l.flatMap (fun s => s :: check_if_while_encountered s) := by
  induction l with
  | nil => simp [mark_stmts]
  | cons s rest ih => simp [mark_stmts, ih, List.flatMap_cons]

theorem mem_mark_stmts {s' : Stmt} {l : List Stmt} :
    s' ∈ mark_stmts l ↔ s' ∈ l ∨ ∃ m ∈ l, s' ∈ check_if_while_encountered m := by
  rw [mark_stmts_eq, List.mem_flatMap]
  constructor
  · rintro ⟨m, hm, hmem⟩
    rcases List.mem_cons.mp hmem with h | h
    · subst h; exact Or.inl hm
    · exact Or.inr ⟨m, hm, h⟩
  · rintro (h | ⟨m, hm, h⟩)
    · exact ⟨s', h, List.mem_cons_self _ _⟩
    · exact ⟨m, hm, List.mem_cons_of_mem _ h⟩

theorem inside_of_mem_ciwe :
    ∀ n p, sizeOf p ≤ n → ∀ {s' : Stmt},
      s' ∈ check_if_while_encountered p → InsideBlocks s' p := by
  intro n
  induction n with
  | zero =>
    intro p hp
    exact absurd hp (by cases p <;> simp_arith)
  | succ n ih =>
    intro p hp s' hs'
    cases p with
    | ret h => simp [check_if_while_encountered] at hs'
    | other => simp [check_if_while_encountered] at hs'
    | whileStmt b =>
      have hs'' : s' ∈ mark_stmts b := hs'
      rcases mem_mark_stmts.mp hs'' with h | ⟨m, hm, hmem⟩
      · exact InsideBlocks.direct (by simpa [in_nested_block] using h)
      · have hsz : sizeOf m ≤ n := by
          have h1 := List.sizeOf_lt_of_mem hm
          have h2 : sizeOf (Stmt.whileStmt b) = 1 + sizeOf b := by simp
          omega
        exact InsideBlocks.nested (by simpa [in_nested_block] using hm) (ih m hsz hmem)
    | ifStmt t e =>
      cases e with
      | none =>
        have hs'' : s' ∈ mark_stmts t := hs'
        rcases mem_mark_stmts.mp hs'' with h | ⟨m, hm, hmem⟩
        · exact InsideBlocks.direct (by simpa [in_nested_block] using h)
        · have hsz : sizeOf m ≤ n := by
            have h1 := List.sizeOf_lt_of_mem hm
            have h2 : sizeOf (Stmt.ifStmt t none) = 1 + sizeOf t + 1 := by simp
            omega
          exact InsideBlocks.nested (by simpa [in_nested_block] using hm) (ih m hsz hmem)
      | some eb =>
        have hs'' : s' ∈ mark_stmts t ++ mark_stmts eb := hs'
        rcases List.mem_append.mp hs'' with hmem0 | hmem0
        · rcases mem_mark_stmts.mp hmem0 with h | ⟨m, hm, hmem⟩
          · exact InsideBlocks.direct (by simp [in_nested_block, h])
          · have hsz : sizeOf m ≤ n := by
              have h1 := List.sizeOf_lt_of_mem hm
              have h2 : sizeOf (Stmt.ifStmt t (some eb)) = 1 + sizeOf t + (1 + sizeOf eb) := by
                simp
              omega
            exact InsideBlocks.nested (p := .ifStmt t (some eb))
              (by simp [in_nested_block, hm]) (ih m hsz hmem)
        · rcases mem_mark_stmts.mp hmem0 with h | ⟨m, hm, hmem⟩
          · exact InsideBlocks.direct (by simp [in_nested_block, h])
          · have hsz : sizeOf m ≤ n := by
              have h1 := List.sizeOf_lt_of_mem hm
              have h2 : sizeOf (Stmt.ifStmt t (some eb)) = 1 + sizeOf t + (1 + sizeOf eb) := by
                simp
              omega
            exact InsideBlocks.nested (p := .ifStmt t (some eb))
              (by simp [in_nested_block, hm]) (ih m hsz hmem)

theorem mem_ciwe_of_inside {s' p : Stmt} (h : InsideBlocks s' p) :
    s' ∈ check_if_while_encountered p := by
  induction h with
  | direct hd =>
    rename_i q
    cases q with
    | ret b => simp [in_nested_block] at hd
    | other => simp [in_nested_block] at hd
    | whileStmt b =>
      exact mem_mark_stmts.mpr (Or.inl (by simpa [in_nested_block] using hd))
    | ifStmt t e =>
      cases e with
      | none => exact mem_mark_stmts.mpr (Or.inl (by simpa [in_nested_block] using hd))
      | some eb =>
        rcases (by simpa [in_nested_block] using hd : s' ∈ t ∨ s' ∈ eb) with h0 | h0
        · exact List.mem_append.mpr (Or.inl (mem_mark_stmts.mpr (Or.inl h0)))
        · exact List.mem_append.mpr (Or.inr (mem_mark_stmts.mpr (Or.inl h0)))
  | nested hd hins ih =>
    rename_i m q
    cases q with
    | ret b => simp [in_nested_block] at hd
    | other => simp [in_nested_block] at hd
    | whileStmt b =>
      exact mem_mark_stmts.mpr
        (Or.inr ⟨m, by simpa [in_nested_block] using hd, ih⟩)
    | ifStmt t e =>
      cases e with
      | none =>
        exact mem_mark_stmts.mpr
          (Or.inr ⟨m, by simpa [in_nested_block] using hd, ih⟩)
      | some eb =>
        rcases (by simpa [in_nested_block] using hd : m ∈ t ∨ m ∈ eb) with h0 | h0
        · exact List.mem_append.mpr (Or.inl (mem_mark_stmts.mpr (Or.inr ⟨m, h0, ih⟩)))
        · exact List.mem_append.mpr (Or.inr (mem_mark_stmts.mpr (Or.inr ⟨m, h0, ih⟩)))

theorem unreachable_scan_true (l : List Stmt) :
    unreachable_scan true l = l.flatMap (fun s => s :: check_if_while_encountered s) := by
  induction l with
  | nil => simp [unreachable_scan]
  | cons s rest ih => simp [unreachable_scan, ih, List.flatMap_cons]

/-- C2: the unreachable-statement pass of `exitBlock` logs exactly the
statements strictly after the first return or fully terminating `if` of the
block (the flag-setting statement itself is never logged; nothing is logged
when no such statement exists), and, for each of them that is an `if` or
`while`, additionally every statement inside all of its nested blocks,
recursively and unconditionally (`check_if_while_encountered p` contains a
statement iff it lies inside `p`'s nested blocks at some depth). -/
theorem claim2_unreachable_statements :
    (∀ stmts, unreachable_scan false stmts
        = (after_first_hit stmts).flatMap (fun s => s :: check_if_while_encountered s))
    ∧ (∀ p s', s' ∈ check_if_while_encountered p ↔ InsideBlocks s' p) := by
  constructor
  · intro stmts
    induction stmts with
    | nil => simp [unreachable_scan, after_first_hit]
    | cons s rest ih =>
      by_cases h : stmt_hit s = true
      · simp [unreachable_scan, after_first_hit, h, unreachable_scan_true]
      · have h' : stmt_hit s = false := Bool.eq_false_iff.mpr h
        simp [unreachable_scan, after_first_hit, h', ih]
  · intro p s'
    exact ⟨fun h => inside_of_mem_ciwe (sizeOf p) p le_rfl h, mem_ciwe_of_inside⟩

theorem missing_return_scan_iff (stmts : List Stmt) :
    missing_return_scan stmts = true ↔ ∃ s ∈ stmts, stmt_hit s = true := by
  have hstep : ∀ (b : Bool) (l : List Stmt),
      l.foldl
        (fun fully_blocked s =>
          match s with
          | .ifStmt t e => if check_if_totalblocked (.ifStmt t e) then true else fully_blocked
          | .ret _ => true
          | _ => fully_blocked)
        b = (b || l.any stmt_hit) := by
    intro b l
    induction l generalizing b with
    | nil => simp
    | cons s rest ih =>
      rw [List.foldl_cons, ih, List.any_cons]
      have : (match s with
          | Stmt.ifStmt t e =>
              if check_if_totalblocked (.ifStmt t e) then true else b
          | Stmt.ret _ => true
          | _ => b) = (b || stmt_hit s) := by
        cases s with
        | ret h => simp [stmt_hit]
        | ifStmt t e =>
          by_cases hc : check_if_totalblocked (.ifStmt t e) = true <;>
            simp [stmt_hit, hc]
        | whileStmt bdy => simp [stmt_hit]
        | other => simp [stmt_hit]
      rw [this]
      cases b <;> cases stmt_hit s <;> simp
  rw [missing_return_scan, hstep, Bool.false_or, List.any_eq_true]

theorem ann_isSome_iff (ann : Option NimbleType) :
    ann.isSome = true ↔ declared_return_type ann ≠ PrimitiveType.Void := by
  cases ann with
  | none => simp [declared_return_type]
  | some t => cases t <;> simp [declared_return_type, NimbleType.toPrimitive]

/-- C3: `exitBlock` logs `MissingReturn` iff the block is the direct body of
a function definition whose declared return type is not `Void` and no
top-level statement of the block is a return or a fully terminating `if`
(the scan runs over every top-level statement, so statements already made
unreachable by an earlier return still satisfy the check). -/
theorem claim3_missing_return :
    ∀ (isFuncBody : Bool) (ann : Option NimbleType) (stmts : List Stmt),
      BlockDiag.missingReturn ∈ exitBlock isFuncBody ann stmts ↔
        (isFuncBody = true ∧ declared_return_type ann ≠ PrimitiveType.Void
          ∧ ¬ ∃ s ∈ stmts, stmt_hit s = true) := by
  intro isFuncBody ann stmts
  have hmap : BlockDiag.missingReturn ∉
      (unreachable_scan false stmts).map BlockDiag.unreachable := by
    simp [List.mem_map]
  rw [exitBlock, List.mem_append]
  cases isFuncBody with
  | false => simp [hmap]
  | true =>
    by_cases hann : ann.isSome = true
    · by_cases hscan : missing_return_scan stmts = true
      · have := (missing_return_scan_iff stmts).mp hscan
        simp [hmap, hann, hscan, this]
      · have hnone : ¬ ∃ s ∈ stmts, stmt_hit s = true :=
          fun hc => hscan ((missing_return_scan_iff stmts).mpr hc)
        simp [hmap, hann, hscan, hnone, (ann_isSome_iff ann).mp hann]
    · have hb : ann.isSome = false := Bool.eq_false_iff.mpr hann
      have : declared_return_type ann = PrimitiveType.Void := by
        cases ann with
        | none => rfl
        | some t => simp at hb
      simp [hmap, hb, this]

/-- C5: `exitReturn` logs an `InvalidReturn` exactly when the enclosing
scope's return type is `Void` and a return expression is present, or the
return type is not `Void` and the expression is absent or of a different
inferred type; in every other case nothing is logged. -/
theorem claim5_return_check :
    ∀ (return_type : PrimitiveType) (exprType : Option PrimitiveType),
      exitReturn return_type exprType = true ↔
        ((return_type = .Void ∧ exprType.isSome = true)
          ∨ (return_type ≠ .Void
              ∧ (exprType = none ∨ ∃ t, exprType = some t ∧ t ≠ return_type))) := by
  decide

theorem collect_mismatches_eq_filter (l : List (PrimitiveType × PrimitiveType)) :
    collect_mismatches l = l.filter (fun q => decide (q.1 ≠ q.2)) := by
  induction l with
  | nil => rfl
  | cons q rest ih =>
    obtain ⟨a, p⟩ := q
    by_cases h : a = p
    · simp [collect_mismatches, h, ih, List.filter_cons]
    · simp [collect_mismatches, h, ih, List.filter_cons]

theorem zip_append_left_of_le {α β : Type} :
    ∀ (params : List β) (args extra : List α),
      params.length ≤ args.length →
        (args ++ extra).zip params = args.zip params := by
  intro params
  induction params with
  | nil => intro args extra _; simp
  | cons p ps ih =>
    intro args extra h
    cases args with
    | nil => simp at h
    | cons a as =>
      simp only [List.cons_append, List.zip_cons_cons]
      rw [ih as extra (by simpa using h)]

theorem zip_append_right_of_le {α β : Type} :
    ∀ (args : List α) (params extraP : List β),
      args.length ≤ params.length →
        args.zip (params ++ extraP) = args.zip params := by
  intro args
  induction args with
  | nil => intro params extraP _; simp
  | cons a as ih =>
    intro params extraP h
    cases params with
    | nil => simp at h
    | cons p ps =>
      simp only [List.cons_append, List.zip_cons_cons]
      rw [ih ps extraP (by simpa using h)]

/-- C4: an unresolved callee yields type `Error` and the single unresolved
`InvalidCall` diagnostic, with the arguments never examined; a callee
resolved to a function is checked pairwise positionally over the zip of
argument and parameter types — all mismatching pairs are collected into one
combined `InvalidCall` diagnostic and the type is `Error`, while no mismatch
gives the declared return type and no diagnostic; arguments beyond the
parameter count and parameters beyond the argument count never affect the
outcome. -/
theorem claim4_function_call :
    (∀ argTypes, exitFuncCall none argTypes
        = some (.ERROR, [CallDiag.invalidCall_unresolved]))
    ∧ (∀ f argTypes,
        ((argTypes.zip f.parameter_types).filter (fun q => decide (q.1 ≠ q.2)) = [] →
          exitFuncCall (some (.func f)) argTypes = some (f.return_type, []))
        ∧ ((argTypes.zip f.parameter_types).filter (fun q => decide (q.1 ≠ q.2)) ≠ [] →
          exitFuncCall (some (.func f)) argTypes
            = some (.ERROR,
                [CallDiag.invalidCall_mismatch
                  ((argTypes.zip f.parameter_types).filter (fun q => decide (q.1 ≠ q.2)))])))
    ∧ (∀ f argTypes extra, f.parameter_types.length ≤ argTypes.length →
        exitFuncCall (some (.func f)) (argTypes ++ extra)
          = exitFuncCall (some (.func f)) argTypes)
    ∧ (∀ params extraP ret argTypes, argTypes.length ≤ params.length →
        exitFuncCall (some (.func ⟨params ++ extraP, ret⟩)) argTypes
          = exitFuncCall (some (.func ⟨params, ret⟩)) argTypes) := by
  refine ⟨fun argTypes => rfl, fun f argTypes => ⟨fun h => ?_, fun h => ?_⟩,
    fun f argTypes extra h => ?_, fun params extraP ret argTypes h => ?_⟩
  · have h0 : collect_mismatches (argTypes.zip f.parameter_types) = [] := by
      rw [collect_mismatches_eq_filter, h]
    simp [exitFuncCall, h0]
  · have h0 : collect_mismatches (argTypes.zip f.parameter_types) ≠ [] := by
      rw [collect_mismatches_eq_filter]; exact h
    simp only [exitFuncCall, if_pos h0, collect_mismatches_eq_filter]
    rw [if_pos h]
  · simp only [exitFuncCall, zip_append_left_of_le f.parameter_types argTypes extra h]
  · simp only [exitFuncCall, zip_append_right_of_le argTypes params extraP h]

/-- Witness for C4 at concrete inputs: calling a one-`Int`-parameter function
with an extra argument beyond the parameter count gives the same result as
without it, here a clean call returning the declared `Void`. -/
theorem claim4_witness :
    exitFuncCall (some (.func ⟨[PrimitiveType.Int], PrimitiveType.Void⟩))
        ([PrimitiveType.Int] ++ [PrimitiveType.Bool])
      = exitFuncCall (some (.func ⟨[PrimitiveType.Int], PrimitiveType.Void⟩))
        [PrimitiveType.Int]
    ∧ exitFuncCall (some (.func ⟨[PrimitiveType.Int, PrimitiveType.Bool],
          PrimitiveType.Void⟩)) [PrimitiveType.Int]
      = exitFuncCall (some (.func ⟨[PrimitiveType.Int], PrimitiveType.Void⟩))
        [PrimitiveType.Int] :=
  ⟨claim4_function_call.2.2.1 ⟨[PrimitiveType.Int], PrimitiveType.Void⟩
      [PrimitiveType.Int] [PrimitiveType.Bool] (by decide),
   claim4_function_call.2.2.2 [PrimitiveType.Int] [PrimitiveType.Bool]
      PrimitiveType.Void [PrimitiveType.Int] (by decide)⟩

/-- C6 (divergence): on a declaration whose name is already resolvable
(here `x`, bound to `Int`), with an initializer whose inferred type (`Bool`)
differs from the declared type (`Int`), `exitVarDec` logs *two* diagnostics —
`DuplicateName` from `sub_var_dec` and then `AssignToWrongType` — because the
initializer type check is not guarded by the duplicate-name `error` flag,
contrary to the stated "skip all further checks". -/
theorem claim6_duplicate_vardec_two_diagnostics :
    (exitVarDec [[("x", SymbolType.prim .Int, false)]] "x" NimbleType.Int
        (some .Bool)).2
      = [VarDecDiag.duplicateName, VarDecDiag.assignToWrongType] := by
  decide

/-- C7 (counterexample): a variable reference whose name resolves to a
function symbol is annotated by `exitVariable` with that `FunctionType`, not
with a `PrimitiveType`. -/
theorem claim7_counterexample :
    SymbolType.isPrim
        (exitVariable (some (.func ⟨[], PrimitiveType.Void⟩))) = false
      ∧ exitVariable (some (.func ⟨[], PrimitiveType.Void⟩))
        = .func ⟨[], PrimitiveType.Void⟩ := by
  decide

/-- C7 (amended): every annotation written by `exitVariable` is a
`PrimitiveType`, except that a name resolved to a function symbol is
annotated with that symbol's `FunctionType` unchanged. -/
theorem claim7_amended_variable_annotation :
    ∀ resolved : Option SymbolType,
      SymbolType.isPrim (exitVariable resolved) = true
        ∨ ∃ f, resolved = some (.func f) ∧ exitVariable resolved = .func f := by
  intro resolved
  match resolved with
  | none => exact Or.inl rfl
  | some (.prim p) =>
    left
    by_cases h : SymbolType.prim p = SymbolType.prim .ERROR <;>
      simp [exitVariable, h, SymbolType.isPrim]
  | some (.func f) =>
    right
    exact ⟨f, rfl, by simp [exitVariable]⟩

/-- C8 (counterexample): the analysis does have a fatal path — a function
call whose callee name resolves to a symbol of primitive type (for example a
declared variable) makes `exitFuncCall` access `parameter_types` on a
`PrimitiveType`, raising an uncaught `AttributeError` that aborts the run
(modelled as `none`). -/
theorem claim8_counterexample :
    exitFuncCall (some (SymbolType.prim PrimitiveType.Int)) [] = none := by
  decide

/-- C8 (amended): the function-call handler completes normally — recovering
every semantic violation with the `Error` sentinel — in exactly the cases
where the callee name does not resolve to a primitive-typed symbol; the
remaining case is the one fatal path. -/
theorem claim8_amended_no_other_fatal_path :
    ∀ (sym : Option SymbolType) (argTypes : List PrimitiveType),
      (exitFuncCall sym argTypes).isSome = true ↔
        ∀ p, sym ≠ some (SymbolType.prim p) := by
  intro sym argTypes
  match sym with
  | none => simp [exitFuncCall]
  | some (.prim p) => simp [exitFuncCall]
  | some (.func f) =>
    simp only [exitFuncCall]
    constructor
    · intro _ p h; cases h
    · intro _
      by_cases h : collect_mismatches (argTypes.zip f.parameter_types) = [] <;>
        simp [h]

/-- C9: for `*`, `/`, `+`, binary `-` and the comparisons, an operand whose
inferred type is not `Int` makes the node's type `Error` with exactly one
`InvalidBinaryOp` logged; two `Int` operands give `Int` (arithmetic) or
`Bool` (comparison) with nothing logged. -/
theorem claim9_binary_operators :
    ∀ (op : AddOp) (left right : PrimitiveType),
      ((left ≠ .Int ∨ right ≠ .Int) →
        exitMulDiv left right = (.ERROR, true)
          ∧ exitAddSub op left right = (.ERROR, true)
          ∧ exitCompare left right = (.ERROR, true))
      ∧ ((left = .Int ∧ right = .Int) →
        exitMulDiv left right = (.Int, false)
          ∧ exitAddSub op left right = (.Int, false)
          ∧ exitCompare left right = (.Bool, false)) := by
  decide

/-- Witness for C9 at concrete inputs: a `Bool` left operand yields `Error`
plus the diagnostic for all three handlers; two `Int` operands yield the
clean results. -/
theorem claim9_witness :
    (exitMulDiv .Bool .Int = (.ERROR, true)
      ∧ exitAddSub .plus .Bool .Int = (.ERROR, true)
      ∧ exitCompare .Bool .Int = (.ERROR, true))
    ∧ (exitMulDiv .Int .Int = (.Int, false)
      ∧ exitAddSub .minus .Int .Int = (.Int, false)
      ∧ exitCompare .Int .Int = (.Bool, false)) :=
  ⟨(claim9_binary_operators .plus .Bool .Int).1 (Or.inl (by decide)),
   (claim9_binary_operators .minus .Int .Int).2 (by decide)⟩

/-- C10: the duplicate check of `sub_var_dec` uses `Scope.resolve`, which
walks up through the enclosing scopes — so a variable or parameter
declaration whose name is visible in any enclosing scope (for example a
global function name) is reported `DuplicateName` and bound to `Error` in
the current scope, forbidding shadowing. -/
theorem claim10_no_shadowing :
    ∀ (cur : SymTab) (outer : List SymTab) (name : String) (t : SymbolType)
      (declType : NimbleType),
      Scope.resolve outer name = some t →
        sub_var_dec (cur :: outer) name
            = (((name, SymbolType.prim .ERROR, false) :: cur) :: outer, true,
                [VarDecDiag.duplicateName])
          ∧ exitParameterDef (cur :: outer) name declType
            = (((name, SymbolType.prim .ERROR, false) :: cur) :: outer,
                [VarDecDiag.duplicateName])
          ∧ ∀ initType,
              VarDecDiag.duplicateName
                  ∈ (exitVarDec (cur :: outer) name declType initType).2
                ∧ ∃ frame rest,
                    (exitVarDec (cur :: outer) name declType initType).1
                        = frame :: rest
                      ∧ lookup_frame frame name = some (.prim .ERROR) := by
  intro cur outer name t declType h
  have hres : (Scope.resolve (cur :: outer) name).isSome = true := by
    rw [Scope.resolve]
    cases hl : lookup_frame cur name with
    | none => simp [h]
    | some u => simp
  have hsub : sub_var_dec (cur :: outer) name
      = (((name, SymbolType.prim .ERROR, false) :: cur) :: outer, true,
          [VarDecDiag.duplicateName]) := by
    simp [sub_var_dec, hres, Scope.define]
  refine ⟨hsub, ?_, ?_⟩
  · simp [exitParameterDef, hsub]
  · intro initType
    cases initType with
    | none =>
      simp [exitVarDec, hsub, lookup_frame]
    | some et =>
      by_cases hmt : et = declType.toPrimitive
      · simp [exitVarDec, hsub, hmt, lookup_frame]
      · simp [exitVarDec, hsub, hmt, Scope.define, lookup_frame]

/-- Witness for C10 at concrete inputs: declaring `f` inside a function while
a global function `f` is visible in the enclosing (global) scope is reported
as a duplicate and bound to `Error` in the current scope. -/
theorem claim10_witness :
    sub_var_dec [[], [("f", SymbolType.func ⟨[], PrimitiveType.Void⟩, false)]] "f"
      = ([[("f", SymbolType.prim .ERROR, false)],
          [("f", SymbolType.func ⟨[], PrimitiveType.Void⟩, false)]], true,
          [VarDecDiag.duplicateName]) :=
  (claim10_no_shadowing [] [[("f", SymbolType.func ⟨[], PrimitiveType.Void⟩, false)]]
    "f" (SymbolType.func ⟨[], PrimitiveType.Void⟩) NimbleType.Int (by decide)).1
